import Mathlib

/-!
Verification of the cloc-style line-counting engine (`src/src/utils/cloc.c`).

Byte buffers and C strings are modelled as `List Nat` (one entry per byte;
the model strings never contain the byte 0, which in C terminates them).
The fuel argument of `cloc_loop` is a termination device only: every
iteration of the C `while` loop consumes at least one byte, so fuel equal
to the buffer length is always sufficient (the caller passes exactly that).
-/

/-- A per-file result, mirroring the C output array
`[lines, code, comments, blanks, size]`. -/
structure ClocResult where
  lines : Nat
  code : Nat
  comments : Nat
  blanks : Nat
  size : Nat
deriving Repr, DecidableEq

/-- The running line counters of `count_file_buffer` (`size` is added at
the end by the wrapper). -/
structure LineCounts where
  lines : Nat
  code : Nat
  comments : Nat
  blanks : Nat
deriving Repr, DecidableEq

/-- Mirrors `dynamic_lang_t` in the source; `ext_count` is implicit as
`extensions.length`. -/
structure dynamic_lang_t where
  name : List Nat
  extensions : List (List Nat)
  line_comment : List Nat
  block_start : List Nat
  block_end : List Nat
deriving Repr, DecidableEq

/-- `str_copy(dst, src, max_len)`: copies at most `max_len - 1` bytes. -/
def str_copy (src : List Nat) (max_len : Nat) : List Nat :=
  src.take (max_len - 1)

/-- ASCII lowering of one byte, as in `str_equals_ci` (`'A'..'Z'` ↦ `+32`). -/
def lower_byte (c : Nat) : Nat :=
  if 65 ≤ c ∧ c ≤ 90 then c + 32 else c

/-- Mirrors `str_equals_ci`: case-insensitive equality of two C strings. -/
def str_equals_ci : List Nat → List Nat → Bool
  | [], [] => true
  | a :: as_, b :: bs_ => lower_byte a == lower_byte b && str_equals_ci as_ bs_
  | _, _ => false

/-- One segment of the comma-separated extension list, as stored by
`add_language`: kept only when `0 < len < 15`, with a `'.'` (byte 46)
prepended when the segment does not start with one (the copy loop bound
`j < 15` gives the `take`s). -/
def extract_ext (seg : List Nat) : Option (List Nat) :=
  if 0 < seg.length ∧ seg.length < 15 then
    some (if seg.head? ≠ some 46 then 46 :: seg.take 14 else seg.take 15)
  else none

/-- The extension-parsing loop of `add_language`. The C loop runs
`while (ext_str[pos] && ext_count < 20)`, so it exits at the terminating
NUL without extracting the segment in progress: only comma-terminated
segments are stored. `cur` is the segment accumulated since the last
comma, `acc` the stored extensions. -/
def parse_exts_go : List Nat → List Nat → List (List Nat) → List (List Nat)
  | [], _, acc => acc
  | c :: rest, cur, acc =>
    if 20 ≤ acc.length then acc
    else if c == 44 then
      match extract_ext cur with
      | some e => parse_exts_go rest [] (acc ++ [e])
      | none => parse_exts_go rest [] acc
    else parse_exts_go rest (cur ++ [c]) acc

/-- The stored extension list for one `extensions` argument of
`add_language`. -/
def parse_extensions (exts : List Nat) : List (List Nat) :=
  parse_exts_go exts [] []

/-- Mirrors `add_language`: appends one descriptor (no-op at capacity 300).
`str_copy` bounds: 64 for the name, 8 for each comment marker. -/
def add_language (regs : List dynamic_lang_t)
    (name exts lc bs be : List Nat) : List dynamic_lang_t :=
  if 300 ≤ regs.length then regs
  else regs ++ [{ name := str_copy name 64
                , extensions := parse_extensions exts
                , line_comment := str_copy lc 8
                , block_start := str_copy bs 8
                , block_end := str_copy be 8 }]

/-- The extension of a path as computed by `detect_language`: the suffix
starting at the last `'.'` (byte 46), dot included; `none` when the path
has no dot. -/
def ext_of : List Nat → Option (List Nat)
  | [] => none
  | c :: rest =>
    if c == 46 then
      match ext_of rest with
      | some e => some e
      | none => some (c :: rest)
    else ext_of rest

/-- Does one descriptor list the extension `e` (case-insensitively)? -/
def lang_matches_ext (e : List Nat) (lang : dynamic_lang_t) : Bool :=
  lang.extensions.any (fun x => str_equals_ci e x)

/-- Mirrors `detect_language`: first registered descriptor with a
case-insensitive match on the last-dot extension. -/
def detect_language (regs : List dynamic_lang_t) (path : List Nat) :
    Option dynamic_lang_t :=
  if regs.length == 0 then none
  else
    match ext_of path with
    | none => none
    | some e => regs.find? (lang_matches_ext e)

/-- The bytes of the literal `"Unknown"`. -/
def unknown_name : List Nat := [85, 110, 107, 110, 111, 119, 110]

/-- Mirrors `get_language_name`: the detected language's name, or
`"Unknown"`, copied with `str_copy` into a `max_len` buffer. -/
def get_language_name (regs : List dynamic_lang_t) (path : List Nat)
    (max_len : Nat) : List Nat :=
  match detect_language regs path with
  | some l => str_copy l.name max_len
  | none => str_copy unknown_name max_len

/-- Mirrors `bytes_match`: an empty pattern never matches; otherwise an
exact byte comparison bounded by the remaining buffer (`s` is the buffer
suffix from the match position). -/
def bytes_match (pattern s : List Nat) : Bool :=
  if pattern.length == 0 then false
  else if s.length < pattern.length then false
  else pattern.isPrefixOf s

/-- The skip of the line-comment branch:
`while (i < buf_size && buffer[i] != '\n') i++;`. -/
def skip_to_newline : List Nat → List Nat
  | [] => []
  | c :: rest => if c == 10 then c :: rest else skip_to_newline rest

/-- The same-line scan of the block-start branch
(`for (j = i; j <= buf_size - be_len; j++) ...`): looks for `be` before
the next newline; `some` returns the suffix just past the matched end
marker. -/
def find_block_end (be : List Nat) : List Nat → Option (List Nat)
  | [] => none
  | c :: rest =>
    if be.length ≤ (c :: rest).length then
      if c == 10 then none
      else if bytes_match be (c :: rest) then some ((c :: rest).drop be.length)
      else find_block_end be rest
    else none

/-- The end-of-line classification
(`if (in_block) comments++; else if (is_empty) blanks++; else code++;`). -/
def classify_line (in_block is_empty : Bool) (cnt : LineCounts) : LineCounts :=
  if in_block then { cnt with comments := cnt.comments + 1 }
  else if is_empty then { cnt with blanks := cnt.blanks + 1 }
  else { cnt with code := cnt.code + 1 }

/-- The scanning loop of `count_file_buffer`, one constructor case per
iteration of the C `while (i < buf_size)` loop, on the buffer suffix from
position `i`. Each iteration consumes at least one byte, so the fuel
(passed as `buffer.length` by the wrapper) never runs out before the
buffer does; both exhaustion cases perform the final-line classification
of lines 226–228 of the source. -/
def cloc_loop (lc bs be : List Nat) :
    Nat → List Nat → LineCounts → Bool → Bool → Bool → LineCounts
  | _, [], cnt, in_block, _, is_empty => classify_line in_block is_empty cnt
  | 0, _ :: _, cnt, in_block, _, is_empty => classify_line in_block is_empty cnt
  | fuel + 1, c :: rest, cnt, in_block, line_start, is_empty =>
    if c == 10 then
      let cnt2 := classify_line in_block is_empty cnt
      cloc_loop lc bs be fuel rest { cnt2 with lines := cnt2.lines + 1 }
        in_block true true
    else if line_start && (c == 32 || c == 9) then
      cloc_loop lc bs be fuel rest cnt in_block true is_empty
    else if line_start then
      if in_block && bytes_match be (c :: rest) then
        cloc_loop lc bs be fuel ((c :: rest).drop be.length) cnt
          false false false
      else if !in_block && bytes_match lc (c :: rest) then
        cloc_loop lc bs be fuel (skip_to_newline (c :: rest))
          { cnt with comments := cnt.comments + 1 } in_block false is_empty
      else if !in_block && bytes_match bs (c :: rest) then
        match (if 0 < be.length
               then find_block_end be ((c :: rest).drop bs.length)
               else none) with
        | some s2 => cloc_loop lc bs be fuel s2 cnt false false false
        | none =>
          cloc_loop lc bs be fuel ((c :: rest).drop bs.length) cnt
            true false false
      else
        cloc_loop lc bs be fuel rest cnt in_block false
          (is_empty && (c == 32 || c == 9))
    else
      cloc_loop lc bs be fuel rest cnt in_block false
        (is_empty && (c == 32 || c == 9))

/-- Mirrors `count_file_buffer`: the empty buffer short-circuits to one
blank line; otherwise the scan runs with `lines = 1` and empty markers
standing in for the C null markers (an empty marker never matches). -/
def count_file_buffer (buffer : List Nat) (lang : Option dynamic_lang_t) :
    ClocResult :=
  if buffer.length == 0 then ⟨1, 0, 0, 1, 0⟩
  else
    let lc := match lang with | some l => l.line_comment | none => []
    let bs := match lang with | some l => l.block_start | none => []
    let be := match lang with | some l => l.block_end | none => []
    let cnt := cloc_loop lc bs be buffer.length buffer ⟨1, 0, 0, 0⟩
      false true true
    ⟨cnt.lines, cnt.code, cnt.comments, cnt.blanks, buffer.length⟩

/-- Mirrors `analyze_file`: detect, then count. -/
def analyze_file (regs : List dynamic_lang_t) (path buffer : List Nat) :
    ClocResult :=
  count_file_buffer buffer (detect_language regs path)

/-- Mirrors `analyze_batch`: one `(language name, result)` pair per input
file, detection done once and reused for both outputs; names are stored
with `str_copy(.., 64)`. -/
def analyze_batch (regs : List dynamic_lang_t)
    (files : List (List Nat × List Nat)) : List (List Nat × ClocResult) :=
  files.map (fun f =>
    let lang := detect_language regs f.1
    ( match lang with
      | some l => str_copy l.name 64
      | none => str_copy unknown_name 64
    , count_file_buffer f.2 lang))

/-- Mirrors `lang_stats_t` (aggregates track no blanks). -/
structure lang_stats_t where
  files : Nat
  lines : Nat
  code : Nat
  comments : Nat
  size : Nat
deriving Repr, DecidableEq

/-- The aggregation statement block of `aggregate_results`
(`files++; lines += ...; code += ...; comments += ...; size += ...`). -/
def add_stats (s : lang_stats_t) (r : ClocResult) : lang_stats_t :=
  ⟨s.files + 1, s.lines + r.lines, s.code + r.code,
   s.comments + r.comments, s.size + r.size⟩

/-- The existing-language lookup of `aggregate_results`: updates the first
case-insensitive name match, or `none` when the name is new. -/
def agg_update (name : List Nat) (r : ClocResult) :
    List (List Nat × lang_stats_t) → Option (List (List Nat × lang_stats_t))
  | [] => none
  | (n, s) :: rest =>
    if str_equals_ci n name then some ((n, add_stats s r) :: rest)
    else
      match agg_update name r rest with
      | some rest2 => some ((n, s) :: rest2)
      | none => none

/-- One iteration of the file loop of `aggregate_results`: `"Unknown"`
files are skipped, a new language is appended only below capacity 100
(zero-initialised, then aggregated). -/
def agg_step (acc : List (List Nat × lang_stats_t))
    (f : List Nat × ClocResult) : List (List Nat × lang_stats_t) :=
  if str_equals_ci f.1 unknown_name then acc
  else
    match agg_update f.1 f.2 acc with
    | some acc2 => acc2
    | none =>
      if acc.length < 100 then
        acc ++ [(str_copy f.1 64, add_stats ⟨0, 0, 0, 0, 0⟩ f.2)]
      else acc

/-- Mirrors `aggregate_results` over `(language name, result)` pairs. -/
def aggregate_results (files : List (List Nat × ClocResult)) :
    List (List Nat × lang_stats_t) :=
  files.foldl agg_step []

/-- Byte list of an ASCII string literal (codepoints; all inputs used in
the development are ASCII, where codepoint and byte coincide). -/
def bytes_of (s : String) : List Nat :=
  s.data.map Char.toNat

/-- A descriptor with line comment `"//"` and no block markers. -/
def slash_slash_lang : dynamic_lang_t :=
  { name := [], extensions := [], line_comment := [47, 47]
  , block_start := [], block_end := [] }

/-- A descriptor with block markers `"/*"` and `"*/"` and no line comment. -/
def block_comment_lang : dynamic_lang_t :=
  { name := [], extensions := [], line_comment := []
  , block_start := [47, 42], block_end := [42, 47] }

/-- The 16-byte test buffer `"//hello\ncode();\n"`. -/
def buf_line_comment_example : List Nat := bytes_of "//hello\ncode();\n"

/-- The 16-byte test buffer `"/* a\nb */\ncode;\n"`. -/
def buf_block_comment_example : List Nat := bytes_of "/* a\nb */\ncode;\n"

/-! ### Helper lemmas -/

theorem classify_line_lines (ib ie : Bool) (cnt : LineCounts) :
    (classify_line ib ie cnt).lines = cnt.lines := by
  unfold classify_line
  split <;> [rfl; (split <;> rfl)]

theorem append_drop_of_isPrefixOf :
    ∀ (p s : List Nat), p.isPrefixOf s = true → s = p ++ s.drop p.length
  | [], s, _ => by simp
  | a :: p, [], h => by simp [List.isPrefixOf] at h
  | a :: p, b :: s, h => by
    have h' : a = b ∧ p.isPrefixOf s = true := by
      simpa [List.isPrefixOf] using h
    obtain ⟨rfl, h2⟩ := h'
    have ih := append_drop_of_isPrefixOf p s h2
    simpa using ih

theorem bytes_match_spec (p s : List Nat) (h : bytes_match p s = true) :
    0 < p.length ∧ s = p ++ s.drop p.length := by
  unfold bytes_match at h
  split at h
  · exact absurd h (by simp)
  · split at h
    · exact absurd h (by simp)
    · refine ⟨?_, append_drop_of_isPrefixOf p s h⟩
      rename_i h0 _
      simpa using Nat.pos_of_ne_zero (by simpa using h0)

theorem count_drop_of_bytes_match (p s : List Nat)
    (h : bytes_match p s = true) (hp : 10 ∉ p) :
    (s.drop p.length).count 10 = s.count 10 := by
  obtain ⟨-, hs⟩ := bytes_match_spec p s h
  conv_rhs => rw [hs]
  simp [List.count_append, List.count_eq_zero.mpr hp]

theorem skip_to_newline_length :
    ∀ l : List Nat, (skip_to_newline l).length ≤ l.length
  | [] => Nat.le_refl _
  | c :: rest => by
    unfold skip_to_newline
    split
    · exact Nat.le_refl _
    · exact Nat.le_trans (skip_to_newline_length rest) (Nat.le_succ _)

theorem skip_to_newline_count :
    ∀ l : List Nat, (skip_to_newline l).count 10 = l.count 10
  | [] => rfl
  | c :: rest => by
    unfold skip_to_newline
    split
    · rfl
    · rename_i hc
      rw [skip_to_newline_count rest, List.count_cons]
      simp [show ¬ (c = 10) from by simpa using hc]

theorem find_block_end_spec (be : List Nat) (hbe : 10 ∉ be) :
    ∀ t u : List Nat, find_block_end be t = some u →
      u.length ≤ t.length ∧ u.count 10 = t.count 10 := by
  intro t
  induction t with
  | nil => intro u h; exact absurd h (by simp [find_block_end])
  | cons c rest ih =>
    intro u h
    unfold find_block_end at h
    split at h
    · split at h
      · exact absurd h (by simp)
      · split at h
        · rename_i hm
          obtain ⟨hu⟩ := h
          constructor
          · simp
          · exact count_drop_of_bytes_match be (c :: rest) hm hbe
        · rename_i hc _
          obtain ⟨h1, h2⟩ := ih u h
          refine ⟨Nat.le_trans h1 (Nat.le_succ _), ?_⟩
          rw [h2, List.count_cons]
          simp [show ¬ (c = 10) from by simpa using hc]
    · exact absurd h (by simp)

theorem cloc_loop_lines (lc bs be : List Nat)
    (hbs : 10 ∉ bs) (hbe : 10 ∉ be) :
    ∀ (fuel : Nat) (s : List Nat) (cnt : LineCounts) (ib ls ie : Bool),
      s.length ≤ fuel →
      (cloc_loop lc bs be fuel s cnt ib ls ie).lines = cnt.lines + s.count 10 := by
  intro fuel
  induction fuel with
  | zero =>
    intro s cnt ib ls ie hs
    have h0 : s = [] := List.eq_nil_of_length_eq_zero (Nat.le_zero.mp hs)
    subst h0
    simp [cloc_loop, classify_line_lines]
  | succ fuel ih =>
    intro s cnt ib ls ie hs
    match s with
    | [] => simp [cloc_loop, classify_line_lines]
    | c :: rest =>
      have hrest : rest.length ≤ fuel := by
        simpa using Nat.lt_succ_iff.mp (Nat.lt_of_lt_of_le (by simp) hs)
      simp only [cloc_loop]
      by_cases hc : (c == 10) = true
      · rw [if_pos hc]
        rw [ih rest _ _ _ _ hrest]
        have hc10 : c = 10 := by simpa using hc
        simp [classify_line_lines, List.count_cons, hc10]
        omega
      · have hc10 : ¬ c = 10 := by simpa using hc
        rw [if_neg hc]
        by_cases hws : (ls && (c == 32 || c == 9)) = true
        · rw [if_pos hws, ih rest _ _ _ _ hrest]
          simp [List.count_cons, hc10]
        · rw [if_neg hws]
          by_cases hls : ls = true
          · rw [if_pos hls]
            by_cases ha : (ib && bytes_match be (c :: rest)) = true
            · rw [if_pos ha]
              have hm := (Bool.and_eq_true _ _).mp ha
              have hb1 : 0 < be.length := (bytes_match_spec be _ hm.2).1
              have hdl : ((c :: rest).drop be.length).length ≤ fuel := by
                rw [List.length_drop]
                simp only [List.length_cons]
                omega
              rw [ih _ _ _ _ _ hdl,
                count_drop_of_bytes_match be (c :: rest) hm.2 hbe]
            · rw [if_neg ha]
              by_cases hlcm : (!ib && bytes_match lc (c :: rest)) = true
              · rw [if_pos hlcm]
                have hsk : skip_to_newline (c :: rest) = skip_to_newline rest := by
                  simp [skip_to_newline, hc10]
                have hdl : (skip_to_newline (c :: rest)).length ≤ fuel := by
                  rw [hsk]
                  exact Nat.le_trans (skip_to_newline_length rest) hrest
                rw [ih _ _ _ _ _ hdl, skip_to_newline_count]
              · rw [if_neg hlcm]
                by_cases hbsm : (!ib && bytes_match bs (c :: rest)) = true
                · rw [if_pos hbsm]
                  have hm := (Bool.and_eq_true _ _).mp hbsm
                  have hb1 : 0 < bs.length := (bytes_match_spec bs _ hm.2).1
                  have hdl : ((c :: rest).drop bs.length).length ≤ fuel := by
                    rw [List.length_drop]
                    simp only [List.length_cons]
                    omega
                  have hdc := count_drop_of_bytes_match bs (c :: rest) hm.2 hbs
                  rcases hfb : (if 0 < be.length
                      then find_block_end be ((c :: rest).drop bs.length)
                      else none) with _ | s2
                  · dsimp only
                    rw [ih _ _ _ _ _ hdl, hdc]
                  · dsimp only
                    by_cases hbe0 : 0 < be.length
                    · rw [if_pos hbe0] at hfb
                      obtain ⟨hl2, hc2⟩ := find_block_end_spec be hbe _ _ hfb
                      have hdl2 : s2.length ≤ fuel := Nat.le_trans hl2 hdl
                      rw [ih _ _ _ _ _ hdl2, hc2, hdc]
                    · rw [if_neg hbe0] at hfb
                      exact absurd hfb (by simp)
                · rw [if_neg hbsm]
                  rw [ih _ _ _ _ _ hrest]
                  simp [List.count_cons, hc10]
          · rw [if_neg hls]
            rw [ih _ _ _ _ _ hrest]
            simp [List.count_cons, hc10]

theorem ext_of_eq_none_of_no_dot :
    ∀ path : List Nat, 46 ∉ path → ext_of path = none := by
  intro path
  induction path with
  | nil => intro _; rfl
  | cons c rest ih =>
    intro h
    have hc : ¬ c = 46 := fun hc => h (by simp [hc])
    have hrest : 46 ∉ rest := fun hm => h (List.mem_cons_of_mem _ hm)
    unfold ext_of
    rw [if_neg (by simpa using hc)]
    exact ih hrest

theorem detect_language_eq_none_of_no_dot (regs : List dynamic_lang_t)
    (path : List Nat) (h : 46 ∉ path) :
    detect_language regs path = none := by
  unfold detect_language
  rw [ext_of_eq_none_of_no_dot path h]
  split <;> rfl

theorem agg_foldl_skip_unknown :
    ∀ (files : List (List Nat × ClocResult))
      (acc : List (List Nat × lang_stats_t)),
      files.foldl agg_step acc =
        (files.filter (fun f => !(str_equals_ci f.1 unknown_name))).foldl
          agg_step acc := by
  intro files
  induction files with
  | nil => intro acc; rfl
  | cons f rest ih =>
    intro acc
    by_cases h : str_equals_ci f.1 unknown_name = true
    · have hstep : agg_step acc f = acc := by
        unfold agg_step
        rw [if_pos h]
      have hfil : (f :: rest).filter
          (fun f => !(str_equals_ci f.1 unknown_name)) =
          rest.filter (fun f => !(str_equals_ci f.1 unknown_name)) := by
        simp [List.filter_cons, h]
      rw [List.foldl_cons, hstep, hfil, ih]
    · have hb : (!(str_equals_ci f.1 unknown_name)) = true := by
        simp [Bool.not_eq_true'] at h ⊢
        exact h
      have hfil : (f :: rest).filter
          (fun f => !(str_equals_ci f.1 unknown_name)) =
          f :: rest.filter (fun f => !(str_equals_ci f.1 unknown_name)) := by
        simp [List.filter_cons, hb]
      rw [List.foldl_cons, hfil, List.foldl_cons, ih]

/-! ### Claim theorems -/

/-- Claim C1 (code bug): the invariant `lines = code + comments + blanks`
fails on the code. With descriptor `{line_comment := "//"}` and buffer
`"//x"`, the line-comment branch increments `comments` but leaves
`is_empty` set and stops at the (absent) newline, so the end-of-line
finalisation counts the same physical line again as a blank:
the result is `lines = 1` but `code + comments + blanks = 2`. -/
theorem lines_sum_violation_at_line_comment :
    count_file_buffer [47, 47, 120] (some slash_slash_lang) =
      ⟨1, 0, 1, 1, 3⟩ ∧
    ¬ ((count_file_buffer [47, 47, 120] (some slash_slash_lang)).lines =
        (count_file_buffer [47, 47, 120] (some slash_slash_lang)).code +
        (count_file_buffer [47, 47, 120] (some slash_slash_lang)).comments +
        (count_file_buffer [47, 47, 120] (some slash_slash_lang)).blanks) := by
  constructor <;> decide

/-- Claim C2 (counterexample): classifying `"//hello\ncode();\n"` with
line comment `"//"` does NOT yield `lines=2, code=1, comments=1,
blanks=0` as claimed. -/
theorem line_comment_example_counterexample :
    ¬ ((count_file_buffer buf_line_comment_example
          (some slash_slash_lang)).lines = 2 ∧
       (count_file_buffer buf_line_comment_example
          (some slash_slash_lang)).code = 1 ∧
       (count_file_buffer buf_line_comment_example
          (some slash_slash_lang)).comments = 1 ∧
       (count_file_buffer buf_line_comment_example
          (some slash_slash_lang)).blanks = 0) := by
  decide

/-- Claim C2 (amended): classifying `"//hello\ncode();\n"` with line
comment `"//"` yields `lines=3, code=1, comments=1, blanks=2, size=16`:
the `"//hello"` line is counted both as a comment and (by the end-of-line
finalisation, since `is_empty` is never cleared) as a blank, and the
empty segment after the final newline counts as one more blank line. -/
theorem line_comment_example_actual :
    count_file_buffer buf_line_comment_example (some slash_slash_lang) =
      ⟨3, 1, 1, 2, 16⟩ := by
  decide

/-- Claim C3 (counterexample): classifying `"/* a\nb */\ncode;\n"` with
block markers `"/*"`, `"*/"` does NOT yield `lines=3, code=1, comments=2,
blanks=0` as claimed. -/
theorem block_comment_example_counterexample :
    ¬ ((count_file_buffer buf_block_comment_example
          (some block_comment_lang)).lines = 3 ∧
       (count_file_buffer buf_block_comment_example
          (some block_comment_lang)).code = 1 ∧
       (count_file_buffer buf_block_comment_example
          (some block_comment_lang)).comments = 2 ∧
       (count_file_buffer buf_block_comment_example
          (some block_comment_lang)).blanks = 0) := by
  decide

/-- Claim C3 (amended): classifying `"/* a\nb */\ncode;\n"` with block
markers `"/*"`, `"*/"` yields `lines=4, code=0, comments=4, blanks=0,
size=16`. The block-end marker is only recognised at a line's first
non-whitespace position (or in the same-line scan of the opening line),
so the `"*/"` in the middle of line 2 does not close the block: every
line, including the empty segment after the final newline, is counted as
a comment. -/
theorem block_comment_example_actual :
    count_file_buffer buf_block_comment_example (some block_comment_lang) =
      ⟨4, 0, 4, 0, 16⟩ := by
  decide

/-- Claim C4: classifying the empty buffer, with any descriptor or none,
yields exactly `lines=1, code=0, comments=0, blanks=1, size=0`. -/
theorem classify_empty_buffer (lang : Option dynamic_lang_t) :
    count_file_buffer [] lang = ⟨1, 0, 0, 1, 0⟩ := rfl

/-- Claim C5: detection uses the substring starting at the LAST dot:
`"archive.tar.gz"` yields extension `".gz"`, not `".tar.gz"`; and for any
registry, a path with no `'.'` (byte 46) yields no descriptor and
language name `"Unknown"`. -/
theorem detect_last_dot_extension :
    ext_of (bytes_of "archive.tar.gz") = some (bytes_of ".gz") ∧
    ext_of (bytes_of "archive.tar.gz") ≠ some (bytes_of ".tar.gz") ∧
    ∀ (regs : List dynamic_lang_t) (path : List Nat), 46 ∉ path →
      detect_language regs path = none ∧
      get_language_name regs path 64 = unknown_name := by
  refine ⟨by decide, by decide, ?_⟩
  intro regs path h
  have hdet := detect_language_eq_none_of_no_dot regs path h
  refine ⟨hdet, ?_⟩
  unfold get_language_name
  rw [hdet]
  decide

/-- Claim C5 (witness): instantiated at the dotless path `"archive"` and
the empty registry. -/
theorem detect_last_dot_extension_witness :
    46 ∉ bytes_of "archive" ∧
    detect_language [] (bytes_of "archive") = none ∧
    get_language_name [] (bytes_of "archive") 64 = unknown_name :=
  ⟨by decide, detect_last_dot_extension.2.2 [] (bytes_of "archive") (by decide)⟩

/-- Claim C6: aggregation ignores every file whose language name is
`"Unknown"` case-insensitively (filtering them out first changes
nothing), and aggregating `[("Python", r1), ("Unknown", r2)]` produces
exactly one aggregate entry, for `"Python"`, with `files = 1`. -/
theorem aggregate_excludes_unknown :
    (∀ files : List (List Nat × ClocResult),
       aggregate_results files =
         aggregate_results
           (files.filter (fun f => !(str_equals_ci f.1 unknown_name)))) ∧
    ∀ r1 r2 : ClocResult,
      (aggregate_results
          [(bytes_of "Python", r1), (bytes_of "Unknown", r2)]).map
          (fun e => (e.1, e.2.files)) = [(bytes_of "Python", 1)] := by
  constructor
  · intro files
    exact agg_foldl_skip_unknown files []
  · intro r1 r2
    rfl

/-- Claim C7: a single-element batch agrees with single-file analysis:
`analyze_batch regs [(p, buf)]` produces the result of
`analyze_file regs p buf` paired with the name produced by
`get_language_name regs p 64` (the batch stores names in 64-byte slots). -/
theorem analyze_batch_singleton_agrees (regs : List dynamic_lang_t)
    (p buf : List Nat) :
    analyze_batch regs [(p, buf)] =
      [(get_language_name regs p 64, analyze_file regs p buf)] := by
  unfold analyze_batch analyze_file get_language_name
  simp only [List.map_cons, List.map_nil]

/-- Claim C8: registering extension entry `"py"` and `".py"` for the same
language produce identical registry contents, hence identical detection
behaviour. (Because the parser only extracts comma-terminated segments,
both inputs store an empty extension list; with a trailing comma both
`"py,"` and `".py,"` store exactly `[".py"]`, the dot prepended to the
entry that lacks it.) -/
theorem register_dot_normalization_equiv :
    (∀ (regs : List dynamic_lang_t) (name lc bs be : List Nat),
        add_language regs name (bytes_of "py") lc bs be =
          add_language regs name (bytes_of ".py") lc bs be) ∧
    parse_extensions (bytes_of "py,") = [bytes_of ".py"] ∧
    parse_extensions (bytes_of ".py,") = [bytes_of ".py"] ∧
    ∀ (regs : List dynamic_lang_t) (name lc bs be path : List Nat),
        detect_language (add_language regs name (bytes_of "py") lc bs be)
            path =
          detect_language (add_language regs name (bytes_of ".py") lc bs be)
            path := by
  have hpe : parse_extensions (bytes_of "py") =
      parse_extensions (bytes_of ".py") := by decide
  have hadd : ∀ (regs : List dynamic_lang_t) (name lc bs be : List Nat),
      add_language regs name (bytes_of "py") lc bs be =
        add_language regs name (bytes_of ".py") lc bs be := by
    intro regs name lc bs be
    unfold add_language
    rw [hpe]
  exact ⟨hadd, by decide, by decide,
    fun regs name lc bs be path => by rw [hadd]⟩

/-- Claim C9: for every buffer and every descriptor (or none) whose
markers contain no newline byte, the reported `lines` equals the number
of newline bytes plus one — so `lines ≥ 1` always, and a buffer ending
in a newline gets the empty segment after it counted as one more line. -/
theorem lines_eq_newline_count_succ (buffer : List Nat)
    (lang : Option dynamic_lang_t)
    (h : ∀ l, lang = some l →
      10 ∉ l.line_comment ∧ 10 ∉ l.block_start ∧ 10 ∉ l.block_end) :
    (count_file_buffer buffer lang).lines = buffer.count 10 + 1 := by
  unfold count_file_buffer
  by_cases hb : (buffer.length == 0) = true
  · rw [if_pos hb]
    have hnil : buffer = [] :=
      List.eq_nil_of_length_eq_zero (by simpa using hb)
    subst hnil
    rfl
  · rw [if_neg hb]
    have hbs : 10 ∉ (match lang with
        | some l => l.block_start
        | none => ([] : List Nat)) := by
      cases lang with
      | none => simp
      | some l => exact (h l rfl).2.1
    have hbe : 10 ∉ (match lang with
        | some l => l.block_end
        | none => ([] : List Nat)) := by
      cases lang with
      | none => simp
      | some l => exact (h l rfl).2.2
    dsimp only
    rw [cloc_loop_lines _ _ _ hbs hbe buffer.length buffer ⟨1, 0, 0, 0⟩
      false true true (Nat.le_refl _)]
    dsimp only
    omega

/-- Claim C9 (witness): instantiated at buffer `"a\n"` and a descriptor
with line comment `"//"` — two lines for one newline (the empty segment
after the trailing newline is the second line). -/
theorem lines_eq_newline_count_succ_witness :
    (count_file_buffer [97, 10] (some slash_slash_lang)).lines =
      ([97, 10] : List Nat).count 10 + 1 :=
  lines_eq_newline_count_succ [97, 10] (some slash_slash_lang)
    (by intro l hl; cases hl; exact ⟨by decide, by decide, by decide⟩)

/-- Claim C10: registration truncates each stored string to its fixed
capacity: the name keeps its first 63 bytes, and each of `line_comment`,
`block_start`, `block_end` keeps its first 7 bytes (all later
classification reads only these stored, truncated markers). -/
theorem registration_truncates_fields (regs : List dynamic_lang_t)
    (name exts lc bs be : List Nat) (h : regs.length < 300) :
    add_language regs name exts lc bs be =
      regs ++ [{ name := name.take 63, extensions := parse_extensions exts
               , line_comment := lc.take 7, block_start := bs.take 7
               , block_end := be.take 7 }] := by
  unfold add_language
  rw [if_neg (by omega)]
  rfl

/-- Claim C10 (witness): registering the 8-byte line-comment marker
`"12345678"` stores only its first 7 bytes `"1234567"`, and a line
consisting of exactly those 7 bytes is then matched as a comment. -/
theorem registration_truncates_fields_witness :
    ([] : List dynamic_lang_t).length < 300 ∧
    add_language [] [65] [] [49, 50, 51, 52, 53, 54, 55, 56] [] [] =
      [{ name := [65], extensions := []
       , line_comment := [49, 50, 51, 52, 53, 54, 55]
       , block_start := [], block_end := [] }] ∧
    (count_file_buffer [49, 50, 51, 52, 53, 54, 55]
        (some { name := [65], extensions := []
              , line_comment := [49, 50, 51, 52, 53, 54, 55]
              , block_start := [], block_end := [] })).comments = 1 :=
  ⟨by decide,
   (registration_truncates_fields [] [65] [] [49, 50, 51, 52, 53, 54, 55, 56]
      [] [] (by decide)).trans (by decide),
   by decide⟩
